import Mathlib

/-
  Verification of the price acquisition and caching layer of the
  portfolio-viewer repository.

  The development shallowly embeds the two variants of the price cache
  service (the in-memory `PriceCacheService.updatePrices` in
  src/server/services/price-cache.service.ts, and the Redis-backed
  `PriceCacheService._fetchAndCachePrices` / `getFreshPrices` variant) and
  the `CryptoPrice` source clients (`getFromCoinCap`, `getPrice`,
  `getBitcoinPrice`, `getUsdcPrice`, `fetchPricesBatch`).

  Modelling conventions:
  - A JavaScript number is `JNum`: a rational value or NaN.  `typeof x ===
    'number'` holds for both constructors; JS truthiness makes 0 and NaN
    falsy.
  - A JavaScript string is abstracted by the two observations the code
    makes of it: truthiness (empty or not) and its `parseFloat` result.
  - Nullable values are `Option`; promise-settlement results are `Settle`;
    a statement that may throw is given an `Except Unit` outcome parameter.
  - Timestamps (`Date.now()` / `new Date()`) are integers (ms since epoch),
    passed in explicitly as `now`.
  - Network responses are oracle parameters (`Nat → HttpResult _`, indexed
    by the retry counter), so retry/backoff behaviour is a pure function of
    the response schedule.
-/

/-- JavaScript number: a real numeric value (modelled as a rational) or NaN. -/
inductive JNum where
  | real (q : ℚ)
  | nan
deriving DecidableEq, Repr

/-- JS truthiness of a number: `0` and `NaN` are falsy, everything else truthy. -/
def JNum.truthy : JNum → Bool
  | .real q => q != 0
  | .nan => false

/-- JS `isNaN` on a number. -/
def JNum.isNan : JNum → Bool
  | .real _ => false
  | .nan => true

/-- A JavaScript value of static type `number | null`, as produced by the
price getters awaited in `updatePrices`. -/
inductive JsVal where
  | jnum (n : JNum)
  | jnull
deriving DecidableEq, Repr

/-- Result of one promise in a `Promise.allSettled` array. -/
inductive Settle where
  | fulfilled (v : JsVal)
  | rejected
deriving DecidableEq, Repr

/-- JS nullish coalescing `a ?? b` on nullable values. -/
def jsCoalesce {α : Type} : Option α → Option α → Option α
  | some v, _ => some v
  | none, b => b

namespace InMemoryCache

/-- The `CachedPrices` interface of price-cache.service.ts: per-symbol
nullable prices plus a nullable `lastUpdated` timestamp.  Prices are full JS
numbers (`JNum`), since the in-memory cache stores whatever the getters
fulfilled with. -/
structure CachedPrices where
  btc : Option JNum
  eth : Option JNum
  sol : Option JNum
  usdc : Option JNum
  xmr : Option JNum
  lastUpdated : Option ℤ
deriving DecidableEq, Repr

/-- The five settled results `[btcResult, ethResult, solResult, usdcResult,
xmrResult]` of the `Promise.allSettled` fan-out in `updatePrices`. -/
structure SettledResults where
  btcResult : Settle
  ethResult : Settle
  solResult : Settle
  usdcResult : Settle
  xmrResult : Settle
deriving DecidableEq, Repr

/-- The `result.status === 'fulfilled' && typeof result.value === 'number'`
check of `updatePrices`: extract the fulfilled numeric value, if any.  Note
that `typeof NaN === 'number'` holds, so a fulfilled NaN passes. -/
def settledNumber : Settle → Option JNum
  | .fulfilled (.jnum n) => some n
  | _ => none

/-- The per-symbol merge of `updatePrices` (price-cache.service.ts lines
58-108): each symbol adopts its fulfilled numeric value, otherwise keeps the
previous price (USDC additionally defaulting to 1); the final cache
assignment re-coalesces with the previous prices and stamps `new Date()`. -/
def updatePricesMerge (previousPrices : CachedPrices) (r : SettledResults)
    (now : ℤ) : CachedPrices :=
  let newBtc := match settledNumber r.btcResult with
    | some n => some n
    | none => previousPrices.btc
  let newEth := match settledNumber r.ethResult with
    | some n => some n
    | none => previousPrices.eth
  let newSol := match settledNumber r.solResult with
    | some n => some n
    | none => previousPrices.sol
  let newUsdc := match settledNumber r.usdcResult with
    | some n => some n
    | none => jsCoalesce previousPrices.usdc (some (JNum.real 1))
  let newXmr := match settledNumber r.xmrResult with
    | some n => some n
    | none => previousPrices.xmr
  { btc := jsCoalesce newBtc previousPrices.btc
    eth := jsCoalesce newEth previousPrices.eth
    sol := jsCoalesce newSol previousPrices.sol
    usdc := jsCoalesce (jsCoalesce newUsdc previousPrices.usdc) (some (JNum.real 1))
    xmr := jsCoalesce newXmr previousPrices.xmr
    lastUpdated := some now }

/-- The module-level state touched by `updatePrices`: the cache and the
`isUpdating` lock flag. -/
structure UpdState where
  priceCache : CachedPrices
  isUpdating : Bool
deriving DecidableEq, Repr

/-- One execution of `updatePrices`, atomically: the guard `if (isUpdating)
return;` (no await separates the check from the set, so check-and-set is
atomic on the event loop), then the `try { allSettled fan-out + merge }
catch {} finally { isUpdating = false }` body.  `outcome` is `.ok results`
when the awaited `Promise.allSettled` statement yields its results array and
`.error` when it throws (the defensive catch path); in both cases the
`finally` clears the flag. -/
def updatePrices (st : UpdState) (outcome : Except Unit SettledResults)
    (now : ℤ) : UpdState :=
  if st.isUpdating then st
  else
    match outcome with
    | .ok results =>
        { priceCache := updatePricesMerge st.priceCache results now
          isUpdating := false }
    | .error _ =>
        { priceCache := st.priceCache, isUpdating := false }

end InMemoryCache

namespace RedisCache

/-- The `CachedPrices` interface of the Redis-backed service variant
(src/unnamed/part_008): nullable per-symbol prices and a numeric (ms)
`lastUpdated`.  The stored object round-trips through
`JSON.stringify`/`JSON.parse`, which cannot produce NaN, so the price fields
are plain rationals. -/
structure CachedPrices where
  btc : Option ℚ
  eth : Option ℚ
  sol : Option ℚ
  usdc : Option ℚ
  xmr : Option ℚ
  lastUpdated : Option ℤ
deriving DecidableEq, Repr

/-- The record returned by `fetchPricesBatch` for the five configured
symbols, as consumed by `_fetchAndCachePrices` (keys 'BTC'..'XMR', values
`number | null`). -/
structure FetchMap where
  btc : Option JNum
  eth : Option JNum
  sol : Option JNum
  usdc : Option JNum
  xmr : Option JNum
deriving DecidableEq, Repr

/-- The `fetchedPricesMap[S] !== null && !isNaN(fetchedPricesMap[S])` guard
of `_fetchAndCachePrices`: the fetched value is adopted only when it is a
non-null non-NaN number. -/
def validFetched : Option JNum → Option ℚ
  | some (.real q) => some q
  | _ => none

/-- The `newCacheData` construction of `_fetchAndCachePrices`
(src/unnamed/part_008 lines 75-98): each symbol takes its valid fetched
value, otherwise `previousPrices?.<sym> ?? null` (USDC defaulting to 1; XMR
keeping the previous value only when it is a genuine number), and
`lastUpdated` is stamped with `Date.now()`. -/
def mergeBatch (previousPrices : Option CachedPrices) (fetched : FetchMap)
    (now : ℤ) : CachedPrices :=
  { btc := match validFetched fetched.btc with
      | some q => some q
      | none => previousPrices.bind CachedPrices.btc
    eth := match validFetched fetched.eth with
      | some q => some q
      | none => previousPrices.bind CachedPrices.eth
    sol := match validFetched fetched.sol with
      | some q => some q
      | none => previousPrices.bind CachedPrices.sol
    usdc := match validFetched fetched.usdc with
      | some q => some q
      | none => some ((previousPrices.bind CachedPrices.usdc).getD 1)
    xmr := match validFetched fetched.xmr with
      | some q => some q
      | none => match previousPrices.bind CachedPrices.xmr with
          | some q => some q
          | none => none
    lastUpdated := some now }

/-- The mutable state of the Redis-backed `PriceCacheService`: the
`isUpdating` lock, the Redis connection flag, the value stored under the
`priceCache` key (TTL expiry is subsumed by `redis = none`), and a ghost
counter of batch fetch fan-outs started (call-count instrumentation for the
single-flight property; not part of the source state). -/
structure SvcState where
  isUpdating : Bool
  isRedisConnected : Bool
  redis : Option CachedPrices
  fetches : ℕ
deriving DecidableEq, Repr

/-- The `_readCacheFromRedis` helper: `null` when Redis is not connected (or
the key is absent), otherwise the stored snapshot. -/
def readCacheFromRedis (s : SvcState) : Option CachedPrices :=
  if s.isRedisConnected then s.redis else none

/-- One execution of `_fetchAndCachePrices`, atomically.  The `if
(this.isUpdating)` guard returns the current Redis read without starting a
fetch (no await separates the check from the set, so check-and-set is atomic
on the event loop).  Otherwise the body reads the previous snapshot, runs
the batch fetch fan-out (`outcome = .ok fetched`, or `.error` when some step
of the try block throws), merges, writes Redis only when connected, returns
`newCacheData` (error path: returns `previousPrices`), and the `finally`
clears the flag on every path.  The result pairs the post-state with the
returned value. -/
def fetchAndCachePrices (s : SvcState) (outcome : Except Unit FetchMap)
    (now : ℤ) : SvcState × Option CachedPrices :=
  if s.isUpdating then (s, readCacheFromRedis s)
  else
    match outcome with
    | .ok fetched =>
        let previousPrices := readCacheFromRedis s
        let newCacheData := mergeBatch previousPrices fetched now
        let redisAfter := if s.isRedisConnected then some newCacheData else s.redis
        ({ isUpdating := false, isRedisConnected := s.isRedisConnected
           redis := redisAfter, fetches := s.fetches + 1 },
         some newCacheData)
    | .error _ =>
        let previousPrices := readCacheFromRedis s
        ({ isUpdating := false, isRedisConnected := s.isRedisConnected
           redis := s.redis, fetches := s.fetches + 1 },
         previousPrices)

/-- The `getFreshPrices` entry point (src/unnamed/part_008 lines 190-196):
it directly awaits `_fetchAndCachePrices` and returns its result
(`Object.freeze` is the identity in the model). -/
def getFreshPrices (s : SvcState) (outcome : Except Unit FetchMap)
    (now : ℤ) : SvcState × Option CachedPrices :=
  fetchAndCachePrices s outcome now

end RedisCache

namespace Flight

/-- Interleaving model of refresh executions against the shared
`isUpdating` flag.  A `trigger` is the atomic guarded entry of
`updatePrices` / `_fetchAndCachePrices` (guard check plus flag set, which
the source performs with no intervening await); a `complete` is a refresh
body reaching its `finally`.  Between its `trigger` and its `complete` a
refresh body is in flight. -/
inductive RefreshAct where
  | trigger
  | complete
deriving DecidableEq, Repr

/-- Shared-flag state: the `isUpdating` flag, the number of refresh bodies
currently in flight (between flag-set and `finally`), and a ghost counter of
fetch fan-outs started. -/
structure FlightState where
  isUpdating : Bool
  running : ℕ
  fetches : ℕ
deriving DecidableEq, Repr

/-- One interleaving step: a `trigger` while `isUpdating` is a no-op that
starts no fetch; a `trigger` while free sets the flag and starts one refresh
body (one fetch fan-out); a `complete` ends the in-flight body and clears
the flag (the `finally`). -/
def flightStep (s : FlightState) : RefreshAct → FlightState
  | .trigger =>
      if s.isUpdating then s
      else { isUpdating := true, running := s.running + 1, fetches := s.fetches + 1 }
  | .complete =>
      if s.running = 0 then s
      else { isUpdating := false, running := s.running - 1, fetches := s.fetches }

/-- Initial state: flag clear, nothing in flight. -/
def flightInit : FlightState :=
  { isUpdating := false, running := 0, fetches := 0 }

/-- Run a sequence of interleaved refresh events from the initial state. -/
def flightRun (acts : List RefreshAct) : FlightState :=
  acts.foldl flightStep flightInit

/-- The inductive single-flight invariant: the number of in-flight refresh
bodies is exactly the flag. -/
def FlightInv (s : FlightState) : Prop :=
  s.running = if s.isUpdating then 1 else 0

end Flight

namespace CryptoPriceModel

/-- A JavaScript string abstracted by the two observations the source makes
of it: truthiness (`isEmpty = true` means the falsy empty string) and its
`parseFloat` result (which may be NaN). -/
structure JsStr where
  isEmpty : Bool
  parsed : JNum
deriving DecidableEq, Repr

/-- Outcome of one axios request: a parsed body, an HTTP 429, or any other
error (network error, timeout, other HTTP status). -/
inductive HttpResult (α : Type) where
  | ok (body : α)
  | status429
  | failed
deriving DecidableEq, Repr

/-- The `getFromCoinCap` client (price.ts lines 149-186).  The response body
is abstracted to the `response.data?.data?.priceUsd` field (`none` for a
missing/falsy field).  On a truthy `priceUsd` string it returns
`parseFloat(priceUsd)` unconditionally; on a falsy field or a non-429 error
it returns null; on a 429 with `retryCount < 3` it sleeps
`2^retryCount * 1000` ms and retries.  Returns the list of backoff delays
performed together with the final value. -/
def getFromCoinCap (responses : ℕ → HttpResult (Option JsStr))
    (retryCount : ℕ) : List ℕ × Option JNum :=
  match responses retryCount with
  | .ok (some s) => if s.isEmpty then ([], none) else ([], some s.parsed)
  | .ok none => ([], none)
  | .status429 =>
      if h : retryCount < 3 then
        let rest := getFromCoinCap responses (retryCount + 1)
        (2 ^ retryCount * 1000 :: rest.1, rest.2)
      else ([], none)
  | .failed => ([], none)
termination_by 3 - retryCount
decreasing_by omega

/-- The `getPrice` resolver (price.ts lines 312-329): CoinCap first, then
CoinGecko, then Binance (only when `binanceSymbol` is truthy, i.e.
non-empty); first non-null wins; null when all fail.  Each source client is
an oracle giving its result; the return value pairs the resolved price with
the number of calls made to (CoinCap, CoinGecko, Binance). -/
def getPrice (coinCap coinGecko binance : Option JNum)
    (binanceSymbol : String) : Option JNum × ℕ × ℕ × ℕ :=
  match coinCap with
  | some price => (some price, 1, 0, 0)
  | none =>
    match coinGecko with
    | some price => (some price, 1, 1, 0)
    | none =>
      if binanceSymbol = "" then (none, 1, 1, 0)
      else
        match binance with
        | some price => (some price, 1, 1, 1)
        | none => (none, 1, 1, 1)

/-- The `getBitcoinPrice` entry point (price.ts lines 335-342):
Blockchain.info first, then the standard `getPrice` chain with identifiers
('bitcoin', 'bitcoin', 'BTC').  The result pairs the price with the number
of calls to (Blockchain.info, CoinCap, CoinGecko, Binance). -/
def getBitcoinPrice (blockchainInfo coinCap coinGecko binance : Option JNum) :
    Option JNum × ℕ × ℕ × ℕ × ℕ :=
  match blockchainInfo with
  | some price => (some price, 1, 0, 0, 0)
  | none =>
      let r := getPrice coinCap coinGecko binance "BTC"
      (r.1, 1, r.2.1, r.2.2.1, r.2.2.2)

/-- The `getUsdcPrice` of src/src/integrations/crypto/price.ts lines
352-361: CoinGecko first, falling back to CoinCap, returning the fetched
price when either succeeds and defaulting to 1 only when both fail. -/
def getUsdcPrice (coinGecko coinCap : Option JNum) : JNum :=
  match coinGecko with
  | some price => price
  | none =>
    match coinCap with
    | some price => price
    | none => .real 1

/-- The `getUsdcPrice` of the src/unnamed/part_015 variant (lines 387-389):
a fixed 1 with no network call. -/
def getUsdcPriceV015 : JNum := .real 1

/-- JS `String.prototype.toUpperCase` on ASCII symbol strings: upper-case
every character. -/
def jsToUpperCase (s : String) : String := ⟨s.data.map Char.toUpper⟩

/-- The `SYMBOL_TO_COINGECKO_ID` mapping of price.ts. -/
def SYMBOL_TO_COINGECKO_ID : String → Option String
  | "BTC" => some "bitcoin"
  | "ETH" => some "ethereum"
  | "SOL" => some "solana"
  | "USDC" => some "usd-coin"
  | "XMR" => some "monero"
  | _ => none

/-- JS object property assignment `obj[k] = v` on an association-list
representation: overwrite an existing key or append a new one. -/
def setKey (m : List (String × Option JNum)) (k : String) (v : Option JNum) :
    List (String × Option JNum) :=
  if m.any (fun kv => kv.1 = k) then
    m.map (fun kv => if kv.1 = k then (k, v) else kv)
  else m ++ [(k, v)]

/-- JS object property read `obj[k]`: `some` of the stored value when the
key exists, `none` (undefined) otherwise. -/
def lookupKey (m : List (String × Option JNum)) (k : String) :
    Option (Option JNum) :=
  (m.find? (fun kv => kv.1 = k)).map (fun kv => kv.2)

/-- The per-symbol value computed by the result loop of `fetchPricesBatch`
for an upper-cased symbol `u` against a response body `data` (the parsed
`{ <geckoId>: { usd: number } }` object, abstracted to geckoId → usd value,
with `none` for a falsy body or a missing entry): the price is kept only
when the symbol is mapped and the `usd` field is truthy (so 0 and NaN become
null), otherwise null. -/
def batchValue (data : Option (String → Option JNum)) (u : String) :
    Option JNum :=
  match SYMBOL_TO_COINGECKO_ID u, data with
  | some gid, some d =>
      match d gid with
      | some n => if n.truthy then some n else none
      | none => none
  | _, _ => none

/-- The `for (const symbol of symbols)` result loop of `fetchPricesBatch`:
assign `prices[symbol.toUpperCase()]` for every input symbol. -/
def buildBatchPrices (symbols : List String)
    (data : Option (String → Option JNum)) : List (String × Option JNum) :=
  symbols.foldl (fun prices symbol =>
    setKey prices (jsToUpperCase symbol) (batchValue data (jsToUpperCase symbol))) []

/-- The `errorResult` object of `fetchPricesBatch`: null for every requested
symbol (upper-cased). -/
def errorResultFor (symbols : List String) : List (String × Option JNum) :=
  symbols.foldl (fun m symbol => setKey m (jsToUpperCase symbol) none) []

/-- The `fetchPricesBatch` client (price.ts lines 62-113).  Symbols without
a CoinGecko mapping are filtered out of the request; when no symbol is
mappable the call returns `{}` without a request.  A successful response is
folded into the per-symbol record; a 429 with `retryCount < 3` backs off
`2^retryCount * 1000` ms and retries; any other error (or an exhausted 429)
yields the all-null record.  Returns the backoff delays performed together
with the resulting record. -/
def fetchPricesBatch (responses : ℕ → HttpResult (Option (String → Option JNum)))
    (symbols : List String) (retryCount : ℕ) :
    List ℕ × List (String × Option JNum) :=
  if (symbols.filterMap (fun s => SYMBOL_TO_COINGECKO_ID (jsToUpperCase s))) = [] then
    ([], [])
  else
    match responses retryCount with
    | .ok data => ([], buildBatchPrices symbols data)
    | .status429 =>
        if h : retryCount < 3 then
          let rest := fetchPricesBatch responses symbols (retryCount + 1)
          (2 ^ retryCount * 1000 :: rest.1, rest.2)
        else ([], errorResultFor symbols)
    | .failed => ([], errorResultFor symbols)
termination_by 3 - retryCount
decreasing_by omega

end CryptoPriceModel



def snap0 : RedisCache.CachedPrices :=
  { btc := some 50000, eth := none, sol := none, usdc := some 1, xmr := none,
    lastUpdated := some 0 }

def fetch51 : RedisCache.FetchMap :=
  { btc := some (.real 51000), eth := some (.real 2000), sol := none,
    usdc := some (.real 1), xmr := none }

/-- A fetch map in which every symbol failed (all null), as produced by an
errored batch request. -/
def fetchAllNull : RedisCache.FetchMap :=
  { btc := none, eth := none, sol := none, usdc := none, xmr := none }

def memSnap : InMemoryCache.CachedPrices :=
  { btc := some (.real 50000), eth := some (.real 2000), sol := some (.real 140),
    usdc := some (.real 1), xmr := some (.real 160), lastUpdated := some 0 }

/-- Settled results in which every price promise rejected. -/
def allRejected : InMemoryCache.SettledResults :=
  { btcResult := .rejected, ethResult := .rejected, solResult := .rejected,
    usdcResult := .rejected, xmrResult := .rejected }

/-- A CoinGecko batch response body quoting bitcoin at exactly 0 USD. -/
def zeroData : String → Option JNum :=
  fun g => if g = "bitcoin" then some (JNum.real 0) else none

/-- A CoinGecko batch response body quoting bitcoin at a negative price. -/
def negData : String → Option JNum :=
  fun g => if g = "bitcoin" then some (JNum.real (-5)) else none

namespace CryptoPriceModel

theorem lookupKey_nil (u : String) : lookupKey [] u = none := rfl

theorem lookupKey_cons (kv : String × Option JNum) (rest : List (String × Option JNum))
    (u : String) :
    lookupKey (kv :: rest) u = if kv.1 = u then some kv.2 else lookupKey rest u := by
  by_cases h : kv.1 = u <;> simp [lookupKey, List.find?, h]

theorem lookupKey_map_overwrite (m : List (String × Option JNum)) (k : String)
    (v : Option JNum) (hm : m.any (fun kv => kv.1 = k) = true) :
    lookupKey (m.map (fun kv => if kv.1 = k then (k, v) else kv)) k = some v := by
  induction m with
  | nil => simp at hm
  | cons kv rest ih =>
    by_cases hk : kv.1 = k
    · simp [List.map_cons, hk, lookupKey_cons]
    · simp only [List.any_cons, decide_eq_false_iff_not.mpr hk, Bool.false_or] at hm
      simp only [List.map_cons, if_neg hk, lookupKey_cons, if_neg hk]
      exact ih hm

theorem lookupKey_append_single (m : List (String × Option JNum)) (k : String)
    (v : Option JNum) (hm : m.any (fun kv => kv.1 = k) = false) :
    lookupKey (m ++ [(k, v)]) k = some v := by
  induction m with
  | nil => simp [lookupKey_cons, lookupKey_nil]
  | cons kv rest ih =>
    simp only [List.any_cons, Bool.or_eq_false_iff, decide_eq_false_iff_not] at hm
    simp only [List.cons_append, lookupKey_cons, if_neg hm.1]
    exact ih hm.2

theorem lookupKey_setKey_self (m : List (String × Option JNum)) (k : String)
    (v : Option JNum) : lookupKey (setKey m k v) k = some v := by
  unfold setKey
  by_cases h : m.any (fun kv => kv.1 = k)
  · simpa [h] using lookupKey_map_overwrite m k v h
  · have hb : m.any (fun kv => kv.1 = k) = false := by
      cases hx : m.any (fun kv => kv.1 = k) with
      | true => exact absurd hx h
      | false => rfl
    simpa [hb] using lookupKey_append_single m k v hb

theorem lookupKey_map_other (m : List (String × Option JNum)) (k u : String)
    (v : Option JNum) (hu : u ≠ k) :
    lookupKey (m.map (fun kv => if kv.1 = k then (k, v) else kv)) u = lookupKey m u := by
  induction m with
  | nil => simp [lookupKey_nil]
  | cons kv rest ih =>
    by_cases hk : kv.1 = k
    · have h2 : ¬ (kv.1 = u) := fun hh => hu (hh ▸ hk ▸ rfl : u = k)
      have h1 : ¬ (k = u) := fun hh => hu hh.symm
      simp only [List.map_cons, if_pos hk, lookupKey_cons, if_neg h1, if_neg h2]
      exact ih
    · simp only [List.map_cons, if_neg hk, lookupKey_cons]
      by_cases hku : kv.1 = u
      · simp [hku]
      · simp only [if_neg hku]
        exact ih

theorem lookupKey_append_other (m : List (String × Option JNum)) (k u : String)
    (v : Option JNum) (hu : u ≠ k) :
    lookupKey (m ++ [(k, v)]) u = lookupKey m u := by
  induction m with
  | nil =>
    have h1 : ¬ (k = u) := fun hh => hu hh.symm
    simp [lookupKey_cons, lookupKey_nil, h1]
  | cons kv rest ih =>
    by_cases hku : kv.1 = u
    · simp [List.cons_append, lookupKey_cons, hku]
    · simp only [List.cons_append, lookupKey_cons, if_neg hku]
      exact ih

theorem lookupKey_setKey_other (m : List (String × Option JNum)) (k u : String)
    (v : Option JNum) (hu : u ≠ k) : lookupKey (setKey m k v) u = lookupKey m u := by
  unfold setKey
  by_cases h : m.any (fun kv => kv.1 = k)
  · simpa [h] using lookupKey_map_other m k u v hu
  · have hb : m.any (fun kv => kv.1 = k) = false := by
      cases hx : m.any (fun kv => kv.1 = k) with
      | true => exact absurd hx h
      | false => rfl
    simpa [hb] using lookupKey_append_other m k u v hu

theorem lookupKey_foldl_setKey (F : String → Option JNum) (symbols : List String) :
    ∀ (init : List (String × Option JNum)) (u : String),
    lookupKey (symbols.foldl (fun m s => setKey m (jsToUpperCase s) (F (jsToUpperCase s))) init) u
      = if symbols.any (fun s => jsToUpperCase s = u) then some (F u)
        else lookupKey init u := by
  induction symbols with
  | nil => intro init u; simp
  | cons s ss ih =>
    intro init u
    rw [List.foldl_cons, ih]
    by_cases hsu : jsToUpperCase s = u
    · cases hss : ss.any (fun x => jsToUpperCase x = u) with
      | true => simp [List.any_cons, hss, hsu]
      | false =>
        subst hsu
        simp [List.any_cons, hss, lookupKey_setKey_self]
    · have hu : u ≠ jsToUpperCase s := fun hh => hsu hh.symm
      simp [List.any_cons, hsu, lookupKey_setKey_other _ _ _ _ hu]

theorem lookupKey_buildBatchPrices (symbols : List String)
    (data : Option (String → Option JNum)) (u : String) :
    lookupKey (buildBatchPrices symbols data) u
      = if symbols.any (fun s => jsToUpperCase s = u) then some (batchValue data u)
        else none := by
  unfold buildBatchPrices
  rw [lookupKey_foldl_setKey (batchValue data) symbols [] u, lookupKey_nil]

theorem lookupKey_errorResultFor (symbols : List String) (u : String) :
    lookupKey (errorResultFor symbols) u
      = if symbols.any (fun s => jsToUpperCase s = u) then some none else none := by
  have he : errorResultFor symbols
      = symbols.foldl
          (fun m s => setKey m (jsToUpperCase s) ((fun _ => none) (jsToUpperCase s))) [] := rfl
  rw [he, lookupKey_foldl_setKey (fun _ => none) symbols [] u, lookupKey_nil]

theorem fetchPricesBatch_shape
    (responses : ℕ → HttpResult (Option (String → Option JNum)))
    (symbols : List String) (k : ℕ)
    (hne : symbols.filterMap (fun s => SYMBOL_TO_COINGECKO_ID (jsToUpperCase s)) ≠ []) :
    (∃ data, (fetchPricesBatch responses symbols k).2 = buildBatchPrices symbols data) ∨
    (fetchPricesBatch responses symbols k).2 = errorResultFor symbols := by
  unfold fetchPricesBatch
  rw [if_neg hne]
  cases hr : responses k with
  | ok data => exact Or.inl ⟨data, rfl⟩
  | status429 =>
    by_cases h : k < 3
    · rw [dif_pos h]
      exact fetchPricesBatch_shape responses symbols (k + 1) hne
    · rw [dif_neg h]
      exact Or.inr rfl
  | failed => exact Or.inr rfl
termination_by 3 - k
decreasing_by omega

theorem getFromCoinCap_delays_le (responses : ℕ → HttpResult (Option JsStr))
    (k : ℕ) : (getFromCoinCap responses k).1.length ≤ 3 - k := by
  unfold getFromCoinCap
  cases hr : responses k with
  | ok b =>
    cases b with
    | none => simp
    | some s => by_cases hs : s.isEmpty <;> simp [hs]
  | status429 =>
    by_cases h : k < 3
    · rw [dif_pos h]
      have := getFromCoinCap_delays_le responses (k + 1)
      simp only [List.length_cons]
      omega
    · rw [dif_neg h]
      simp
  | failed => simp
termination_by 3 - k
decreasing_by omega

end CryptoPriceModel

namespace Flight

theorem flightStep_inv (s : FlightState) (hs : FlightInv s) (a : RefreshAct) :
    FlightInv (flightStep s a) := by
  cases a with
  | trigger =>
    unfold FlightInv flightStep at *
    by_cases h : s.isUpdating <;> simp [h] at hs ⊢ <;> exact hs
  | complete =>
    unfold FlightInv flightStep at *
    by_cases h : s.running = 0
    · simp [h] at hs ⊢
      exact hs
    · simp [h] at hs ⊢
      by_cases hu : s.isUpdating <;> simp [hu] at hs <;> omega

theorem flightRun_inv (acts : List RefreshAct) : FlightInv (flightRun acts) := by
  unfold flightRun
  have base : FlightInv flightInit := by unfold FlightInv flightInit; simp
  generalize flightInit = s0 at base ⊢
  induction acts generalizing s0 with
  | nil => exact base
  | cons a rest ih => exact ih (flightStep s0 a) (flightStep_inv s0 base a)

end Flight

/-- C1: single-flight refresh.  In every state where a refresh is already in
progress (`isUpdating` set), a second trigger of `_fetchAndCachePrices`
returns immediately with the current (pre-refresh) cached snapshot and
changes nothing (in particular the fetch counter: no new fetch fan-out
starts), a second trigger of `updatePrices` is a pure no-op, and along every
interleaving of triggers and completions at most one refresh body is ever in
flight. -/
theorem single_flight_refresh :
    (∀ (s : RedisCache.SvcState) (o : Except Unit RedisCache.FetchMap) (now : ℤ),
      s.isUpdating = true →
      RedisCache.fetchAndCachePrices s o now = (s, RedisCache.readCacheFromRedis s)) ∧
    (∀ (st : InMemoryCache.UpdState) (o : Except Unit InMemoryCache.SettledResults)
       (now : ℤ),
      st.isUpdating = true → InMemoryCache.updatePrices st o now = st) ∧
    (∀ acts : List Flight.RefreshAct, (Flight.flightRun acts).running ≤ 1) := by
  refine ⟨?_, ?_, ?_⟩
  · intro s o now h
    simp [RedisCache.fetchAndCachePrices, h]
  · intro st o now h
    simp [InMemoryCache.updatePrices, h]
  · intro acts
    have hinv := Flight.flightRun_inv acts
    unfold Flight.FlightInv at hinv
    rw [hinv]
    split <;> simp

/-- Witness for C1: in a concrete busy state (flag set, Redis connected), a
second trigger returns the pre-refresh snapshot unchanged, and a second
`updatePrices` trigger is a no-op. -/
theorem single_flight_refresh_witness :
    RedisCache.fetchAndCachePrices
        { isUpdating := true, isRedisConnected := true, redis := some snap0, fetches := 1 }
        (.ok fetch51) 60000
      = ({ isUpdating := true, isRedisConnected := true, redis := some snap0, fetches := 1 },
         some snap0) ∧
    InMemoryCache.updatePrices { priceCache := memSnap, isUpdating := true }
        (.error ()) 9
      = { priceCache := memSnap, isUpdating := true } := by
  constructor
  · have h := single_flight_refresh.1
      { isUpdating := true, isRedisConnected := true, redis := some snap0, fetches := 1 }
      (.ok fetch51) 60000 rfl
    simpa [RedisCache.readCacheFromRedis] using h
  · exact single_flight_refresh.2.1 { priceCache := memSnap, isUpdating := true }
      (.error ()) 9 rfl

/-- Counterexample to C2 as stated.  Per-symbol retention does not hold
verbatim for every symbol of the configured set: (i) with no prior USDC
price, a failed USDC resolution stores the default 1, not the pre-refresh
null; (ii) in the in-memory variant a promise fulfilled with NaN (an invalid
value) passes the `typeof === 'number'` check and overwrites a previously
known BTC price. -/
theorem monotonic_retention_counterexample :
    ((InMemoryCache.updatePricesMerge
        { btc := some (.real 50000), eth := none, sol := none, usdc := none,
          xmr := none, lastUpdated := some 0 }
        { btcResult := .fulfilled (.jnum .nan), ethResult := .rejected,
          solResult := .rejected, usdcResult := .rejected, xmrResult := .rejected }
        7).usdc = some (JNum.real 1) ∧
     some (JNum.real 1) ≠ (none : Option JNum)) ∧
    ((InMemoryCache.updatePricesMerge
        { btc := some (.real 50000), eth := none, sol := none, usdc := none,
          xmr := none, lastUpdated := some 0 }
        { btcResult := .fulfilled (.jnum .nan), ethResult := .rejected,
          solResult := .rejected, usdcResult := .rejected, xmrResult := .rejected }
        7).btc = some JNum.nan ∧
     some JNum.nan ≠ some (JNum.real 50000)) := by
  refine ⟨⟨rfl, by decide⟩, ⟨rfl, by decide⟩⟩

/-- C2 amended: per-symbol retention as the code implements it.  In the
in-memory variant, whenever a symbol's settled result is not a fulfilled
number (rejected, or fulfilled with null), BTC/ETH/SOL/XMR keep the previous
price verbatim and USDC keeps the previous price when one exists, defaulting
to 1 otherwise.  In the Redis-backed batch variant, whenever the fetched
value for a symbol is null or NaN, BTC/ETH/SOL/XMR keep the previous
snapshot's price verbatim and USDC defaults to 1 when the previous price was
null.  (A fulfilled NaN in the in-memory variant counts as a number and is
adopted — see the counterexample.) -/
theorem monotonic_retention_amended :
    (∀ (prev : InMemoryCache.CachedPrices) (r : InMemoryCache.SettledResults) (now : ℤ),
      (InMemoryCache.settledNumber r.btcResult = none →
        (InMemoryCache.updatePricesMerge prev r now).btc = prev.btc) ∧
      (InMemoryCache.settledNumber r.ethResult = none →
        (InMemoryCache.updatePricesMerge prev r now).eth = prev.eth) ∧
      (InMemoryCache.settledNumber r.solResult = none →
        (InMemoryCache.updatePricesMerge prev r now).sol = prev.sol) ∧
      (InMemoryCache.settledNumber r.xmrResult = none →
        (InMemoryCache.updatePricesMerge prev r now).xmr = prev.xmr) ∧
      (InMemoryCache.settledNumber r.usdcResult = none →
        (InMemoryCache.updatePricesMerge prev r now).usdc
          = jsCoalesce prev.usdc (some (JNum.real 1)))) ∧
    (∀ (p : RedisCache.CachedPrices) (f : RedisCache.FetchMap) (now : ℤ),
      (RedisCache.validFetched f.btc = none →
        (RedisCache.mergeBatch (some p) f now).btc = p.btc) ∧
      (RedisCache.validFetched f.eth = none →
        (RedisCache.mergeBatch (some p) f now).eth = p.eth) ∧
      (RedisCache.validFetched f.sol = none →
        (RedisCache.mergeBatch (some p) f now).sol = p.sol) ∧
      (RedisCache.validFetched f.xmr = none →
        (RedisCache.mergeBatch (some p) f now).xmr = p.xmr) ∧
      (RedisCache.validFetched f.usdc = none →
        (RedisCache.mergeBatch (some p) f now).usdc = some (p.usdc.getD 1))) := by
  constructor
  · intro prev r now
    refine ⟨?_, ?_, ?_, ?_, ?_⟩ <;> intro h <;>
      simp only [InMemoryCache.updatePricesMerge, h]
    · cases prev.btc <;> simp [jsCoalesce]
    · cases prev.eth <;> simp [jsCoalesce]
    · cases prev.sol <;> simp [jsCoalesce]
    · cases prev.xmr <;> simp [jsCoalesce]
    · cases prev.usdc <;> simp [jsCoalesce]
  · intro p f now
    refine ⟨?_, ?_, ?_, ?_, ?_⟩ <;> intro h <;>
      simp only [RedisCache.mergeBatch, h]
    · simp
    · simp
    · simp
    · cases hx : p.xmr <;> simp [hx]
    · simp

/-- Witness for C2 amended: with all five resolutions rejected against a
fully-populated previous snapshot, every symbol's price is retained; in the
batch variant an all-null fetch against a previous snapshot retains BTC. -/
theorem monotonic_retention_amended_witness :
    InMemoryCache.settledNumber allRejected.btcResult = none ∧
    (InMemoryCache.updatePricesMerge memSnap allRejected 9).btc = memSnap.btc ∧
    RedisCache.validFetched fetchAllNull.btc = none ∧
    (RedisCache.mergeBatch (some snap0) fetchAllNull 9).btc = snap0.btc := by
  refine ⟨rfl, (monotonic_retention_amended.1 memSnap allRejected 9).1 rfl, rfl,
    (monotonic_retention_amended.2 snap0 fetchAllNull 9).1 rfl⟩

/-- Counterexample to C3 as stated.  In the price.ts variant, USDC
resolution does not bypass the network: when CoinGecko returns a fetched
price of 0.99, `getUsdcPrice` resolves to 0.99, not to the fixed 1.0. -/
theorem usdc_fixed_price_counterexample :
    CryptoPriceModel.getUsdcPrice (some (JNum.real (99/100))) none
      = JNum.real (99/100) ∧
    JNum.real (99/100) ≠ JNum.real 1 := by
  refine ⟨rfl, fun hc => ?_⟩
  have h1 : (99/100 : ℚ) = 1 := by injection hc
  norm_num at h1

/-- C3 amended: only the part_015 variant of `getUsdcPrice` returns the
fixed 1.0 with no network call.  The price.ts variant queries CoinGecko then
CoinCap and returns whichever fetched value first succeeds; the fixed 1.0 is
only the default when both sources fail. -/
theorem usdc_price_policy_amended :
    CryptoPriceModel.getUsdcPriceV015 = JNum.real 1 ∧
    (∀ (p : JNum) (cc : Option JNum),
      CryptoPriceModel.getUsdcPrice (some p) cc = p) ∧
    (∀ p : JNum, CryptoPriceModel.getUsdcPrice none (some p) = p) ∧
    CryptoPriceModel.getUsdcPrice none none = JNum.real 1 := by
  exact ⟨rfl, fun _ _ => rfl, fun _ => rfl, rfl⟩

/-- Counterexample to C4 as stated.  `getFreshPrices` does not wait for an
in-flight refresh: called while one is in flight (flag set), it returns the
pre-refresh snapshot (here stamped at time 0, although the call happens at
time 60000 and the in-flight refresh will produce a snapshot stamped at its
own completion time), leaving the state untouched. -/
theorem force_refresh_counterexample :
    (RedisCache.getFreshPrices
        { isUpdating := true, isRedisConnected := true, redis := some snap0, fetches := 1 }
        (.ok fetch51) 60000).2 = some snap0 ∧
    snap0.lastUpdated = some 0 ∧
    (some (0 : ℤ) ≠ some (60000 : ℤ)) ∧
    (RedisCache.getFreshPrices
        { isUpdating := true, isRedisConnected := true, redis := some snap0, fetches := 1 }
        (.ok fetch51) 60000).1
      = { isUpdating := true, isRedisConnected := true, redis := some snap0, fetches := 1 } := by
  refine ⟨rfl, rfl, by decide, rfl⟩

/-- C4 amended: when no refresh is in flight, `getFreshPrices` starts and
awaits a refresh and returns the snapshot that refresh just produced (whose
`lastUpdated` is the completion time, even when the Redis write is skipped);
when a refresh is already in flight, it does not wait — it returns the
current cached pre-refresh snapshot (possibly null) immediately, starting no
new fetch. -/
theorem force_refresh_amended :
    (∀ (s : RedisCache.SvcState) (f : RedisCache.FetchMap) (now : ℤ),
      s.isUpdating = false →
      (RedisCache.getFreshPrices s (.ok f) now).2
          = some (RedisCache.mergeBatch (RedisCache.readCacheFromRedis s) f now) ∧
      (RedisCache.mergeBatch (RedisCache.readCacheFromRedis s) f now).lastUpdated
          = some now) ∧
    (∀ (s : RedisCache.SvcState) (o : Except Unit RedisCache.FetchMap) (now : ℤ),
      s.isUpdating = true →
      RedisCache.getFreshPrices s o now = (s, RedisCache.readCacheFromRedis s)) := by
  constructor
  · intro s f now h
    constructor
    · simp [RedisCache.getFreshPrices, RedisCache.fetchAndCachePrices, h]
    · rfl
  · intro s o now h
    simp [RedisCache.getFreshPrices, RedisCache.fetchAndCachePrices, h]

/-- Witness for C4 amended: from a concrete idle state the forced refresh
returns the merged snapshot stamped at the call's completion time; from the
same state with the flag set it returns the old snapshot unchanged. -/
theorem force_refresh_amended_witness :
    (RedisCache.getFreshPrices
        { isUpdating := false, isRedisConnected := true, redis := some snap0, fetches := 0 }
        (.ok fetch51) 60000).2
      = some (RedisCache.mergeBatch (some snap0) fetch51 60000) ∧
    RedisCache.getFreshPrices
        { isUpdating := true, isRedisConnected := true, redis := some snap0, fetches := 0 }
        (.error ()) 60000
      = ({ isUpdating := true, isRedisConnected := true, redis := some snap0, fetches := 0 },
         some snap0) := by
  constructor
  · have h := (force_refresh_amended.1
      { isUpdating := false, isRedisConnected := true, redis := some snap0, fetches := 0 }
      fetch51 60000 rfl).1
    simpa [RedisCache.readCacheFromRedis] using h
  · have h := force_refresh_amended.2
      { isUpdating := true, isRedisConnected := true, redis := some snap0, fetches := 0 }
      (.error ()) 60000 rfl
    simpa [RedisCache.readCacheFromRedis] using h

/-- C5: refresh-flag cleanup.  Every execution of a refresh body that
acquires the `isUpdating` flag terminates with the flag cleared, for every
outcome of the fetch step — including the throwing outcome — because the
clear sits in the `finally` path of both service variants. -/
theorem refresh_flag_cleanup :
    (∀ (st : InMemoryCache.UpdState) (o : Except Unit InMemoryCache.SettledResults)
       (now : ℤ),
      st.isUpdating = false →
      (InMemoryCache.updatePrices st o now).isUpdating = false) ∧
    (∀ (s : RedisCache.SvcState) (o : Except Unit RedisCache.FetchMap) (now : ℤ),
      s.isUpdating = false →
      ((RedisCache.fetchAndCachePrices s o now).1).isUpdating = false) := by
  constructor
  · intro st o now h
    cases o <;> simp [InMemoryCache.updatePrices, h]
  · intro s o now h
    cases o <;> simp [RedisCache.fetchAndCachePrices, h]

/-- Witness for C5: a refresh whose fetch step throws still terminates with
the flag cleared, in both variants. -/
theorem refresh_flag_cleanup_witness :
    (InMemoryCache.updatePrices { priceCache := memSnap, isUpdating := false }
        (.error ()) 9).isUpdating = false ∧
    ((RedisCache.fetchAndCachePrices
        { isUpdating := false, isRedisConnected := true, redis := some snap0, fetches := 0 }
        (.error ()) 9).1).isUpdating = false := by
  exact ⟨refresh_flag_cleanup.1 { priceCache := memSnap, isUpdating := false } (.error ()) 9 rfl,
    refresh_flag_cleanup.2
      { isUpdating := false, isRedisConnected := true, redis := some snap0, fetches := 0 }
      (.error ()) 9 rfl⟩

/-- C6: the staleness clock always resets.  Both merge functions stamp
`lastUpdated` with the refresh completion time for every combination of
per-symbol results — in particular when every resolution failed and every
price was carried over. -/
theorem staleness_clock_reset :
    (∀ (prev : InMemoryCache.CachedPrices) (r : InMemoryCache.SettledResults) (now : ℤ),
      (InMemoryCache.updatePricesMerge prev r now).lastUpdated = some now) ∧
    (∀ (prev : Option RedisCache.CachedPrices) (f : RedisCache.FetchMap) (now : ℤ),
      (RedisCache.mergeBatch prev f now).lastUpdated = some now) := by
  exact ⟨fun _ _ _ => rfl, fun _ _ _ => rfl⟩

/-- Counterexample to C7 as stated.  `getFromCoinCap` performs no positivity
check: an upstream body whose `priceUsd` is the (truthy) string "0" — which
parses to 0 — is surfaced as the valid price 0, not turned into null. -/
theorem numeric_validation_counterexample :
    CryptoPriceModel.getFromCoinCap
        (fun _ => .ok (some { isEmpty := false, parsed := JNum.real 0 })) 0
      = ([], some (JNum.real 0)) ∧
    some (JNum.real 0) ≠ (none : Option JNum) := by
  constructor
  · simp [CryptoPriceModel.getFromCoinCap]
  · simp

/-- C7 amended: the source clients validate less than the claim states.
`getFromCoinCap` returns `parseFloat(priceUsd)` for every truthy (non-empty)
`priceUsd` string with no NaN/positivity check, so zero, negative and NaN
parses are surfaced; `fetchPricesBatch`'s truthiness check on the `usd`
field turns 0 and NaN into null but passes any non-zero value — including
negative prices — through. -/
theorem numeric_validation_amended :
    (∀ s : CryptoPriceModel.JsStr, s.isEmpty = false →
      CryptoPriceModel.getFromCoinCap (fun _ => .ok (some s)) 0
        = ([], some s.parsed)) ∧
    (∀ (d : String → Option JNum) (u g : String),
      CryptoPriceModel.SYMBOL_TO_COINGECKO_ID u = some g →
      d g = some (JNum.real 0) →
      CryptoPriceModel.batchValue (some d) u = none) ∧
    (∀ (d : String → Option JNum) (u g : String),
      CryptoPriceModel.SYMBOL_TO_COINGECKO_ID u = some g →
      d g = some JNum.nan →
      CryptoPriceModel.batchValue (some d) u = none) ∧
    (∀ (d : String → Option JNum) (u g : String) (q : ℚ),
      CryptoPriceModel.SYMBOL_TO_COINGECKO_ID u = some g →
      d g = some (JNum.real q) → q ≠ 0 →
      CryptoPriceModel.batchValue (some d) u = some (JNum.real q)) := by
  refine ⟨?_, ?_, ?_, ?_⟩
  · intro s h
    simp [CryptoPriceModel.getFromCoinCap, h]
  · intro d u g hm hd
    simp [CryptoPriceModel.batchValue, hm, hd, JNum.truthy]
  · intro d u g hm hd
    simp [CryptoPriceModel.batchValue, hm, hd, JNum.truthy]
  · intro d u g q hm hd hq
    simp [CryptoPriceModel.batchValue, hm, hd, JNum.truthy, hq]

/-- Witness for C7 amended: the string "-5" (truthy, parsing to -5) is
surfaced by `getFromCoinCap` as the price -5, and a batch response quoting
bitcoin at -5 resolves BTC to -5, while a batch quote of exactly 0 becomes
null. -/
theorem numeric_validation_amended_witness :
    CryptoPriceModel.getFromCoinCap
        (fun _ => .ok (some { isEmpty := false, parsed := JNum.real (-5) })) 0
      = ([], some (JNum.real (-5))) ∧
    CryptoPriceModel.batchValue (some negData) "BTC" = some (JNum.real (-5)) ∧
    CryptoPriceModel.batchValue (some zeroData) "BTC" = none := by
  refine ⟨numeric_validation_amended.1 { isEmpty := false, parsed := JNum.real (-5) } rfl,
    numeric_validation_amended.2.2.2 negData "BTC" "bitcoin" (-5 : ℚ)
      rfl rfl (by decide), ?_⟩
  exact numeric_validation_amended.2.1 zeroData "BTC" "bitcoin" rfl rfl

/-- C8: resolver fallback order and first-success.  `getPrice` tries
CoinCap, CoinGecko, then Binance in that fixed order: a CoinCap success
short-circuits; when CoinCap fails and CoinGecko succeeds the resolved price
is CoinGecko's value with CoinCap attempted exactly once; when every source
fails the result is null (no exception — the function is total), with
Binance attempted only when its symbol is non-empty.  `getBitcoinPrice`
prepends Blockchain.info to the same chain. -/
theorem resolver_fallback_order :
    (∀ (cg bn : Option JNum) (sym : String) (p : JNum),
      CryptoPriceModel.getPrice (some p) cg bn sym = (some p, 1, 0, 0)) ∧
    (∀ (bn : Option JNum) (sym : String) (p : JNum),
      CryptoPriceModel.getPrice none (some p) bn sym = (some p, 1, 1, 0)) ∧
    CryptoPriceModel.getPrice none none none "" = (none, 1, 1, 0) ∧
    (∀ sym : String, sym ≠ "" →
      CryptoPriceModel.getPrice none none none sym = (none, 1, 1, 1)) ∧
    (∀ (cg bn : Option JNum) (p : JNum),
      CryptoPriceModel.getBitcoinPrice none (some p) cg bn = (some p, 1, 1, 0, 0)) ∧
    (∀ (cc cg bn : Option JNum) (p : JNum),
      CryptoPriceModel.getBitcoinPrice (some p) cc cg bn = (some p, 1, 0, 0, 0)) := by
  refine ⟨fun _ _ _ _ => rfl, fun _ _ _ => rfl, rfl, ?_, fun _ _ _ => rfl,
    fun _ _ _ _ => rfl⟩
  intro sym h
  simp [CryptoPriceModel.getPrice, h]

/-- Witness for C8: for the concrete symbol SOL with all three sources
failing, the resolver returns null after one attempt at each source. -/
theorem resolver_fallback_order_witness :
    CryptoPriceModel.getPrice none none none "SOL" = (none, 1, 1, 1) :=
  resolver_fallback_order.2.2.2.1 "SOL" (by decide)

/-- C9: rate-limit backoff bound.  A client that keeps receiving HTTP 429
backs off 1000, 2000 and 4000 ms (base 1000 ms times 2^attempt), makes at
most 3 retries, and then surfaces failure instead of throwing: null for
`getFromCoinCap`, the all-null record for `fetchPricesBatch`.  For every
response schedule the number of backoff delays is at most 3. -/
theorem rate_limit_backoff :
    CryptoPriceModel.getFromCoinCap (fun _ => .status429) 0
      = ([1000, 2000, 4000], none) ∧
    (∀ responses, (CryptoPriceModel.getFromCoinCap responses 0).1.length ≤ 3) ∧
    CryptoPriceModel.fetchPricesBatch (fun _ => .status429) ["BTC"] 0
      = ([1000, 2000, 4000], [("BTC", none)]) := by
  refine ⟨?_, ?_, ?_⟩
  · simp [CryptoPriceModel.getFromCoinCap]
  · intro responses
    simpa using CryptoPriceModel.getFromCoinCap_delays_le responses 0
  · simp [CryptoPriceModel.fetchPricesBatch, CryptoPriceModel.errorResultFor,
      CryptoPriceModel.setKey, CryptoPriceModel.jsToUpperCase,
      CryptoPriceModel.SYMBOL_TO_COINGECKO_ID]

/-- C10: batch fetch totality and result shape.  For every input symbol
list, the record returned by `fetchPricesBatch` has an entry — a number or
null — under the upper-cased key of every mappable input symbol; when the
request errors, every requested symbol maps to null; and a fetched price of
exactly 0 fails the truthiness check and is stored as null. -/
theorem fetchPricesBatch_totality :
    (∀ (responses : ℕ → CryptoPriceModel.HttpResult (Option (String → Option JNum)))
       (symbols : List String) (s : String),
      s ∈ symbols →
      CryptoPriceModel.SYMBOL_TO_COINGECKO_ID (CryptoPriceModel.jsToUpperCase s) ≠ none →
      ∃ v : Option JNum,
        CryptoPriceModel.lookupKey
          (CryptoPriceModel.fetchPricesBatch responses symbols 0).2
          (CryptoPriceModel.jsToUpperCase s) = some v) ∧
    (∀ (symbols : List String) (s : String),
      s ∈ symbols →
      symbols.filterMap
          (fun x => CryptoPriceModel.SYMBOL_TO_COINGECKO_ID (CryptoPriceModel.jsToUpperCase x))
        ≠ [] →
      CryptoPriceModel.lookupKey
        (CryptoPriceModel.fetchPricesBatch (fun _ => .failed) symbols 0).2
        (CryptoPriceModel.jsToUpperCase s) = some none) ∧
    (∀ (symbols : List String) (s : String) (data : String → Option JNum) (g : String),
      s ∈ symbols →
      CryptoPriceModel.SYMBOL_TO_COINGECKO_ID (CryptoPriceModel.jsToUpperCase s) = some g →
      data g = some (JNum.real 0) →
      CryptoPriceModel.lookupKey
        (CryptoPriceModel.fetchPricesBatch (fun _ => .ok (some data)) symbols 0).2
        (CryptoPriceModel.jsToUpperCase s) = some none) := by
  refine ⟨?_, ?_, ?_⟩
  · intro responses symbols s hs hmap
    have hne : symbols.filterMap
        (fun x => CryptoPriceModel.SYMBOL_TO_COINGECKO_ID (CryptoPriceModel.jsToUpperCase x))
        ≠ [] := by
      intro hnil
      exact hmap ((List.filterMap_eq_nil_iff.mp hnil) s hs)
    have hany : (symbols.any fun x =>
        CryptoPriceModel.jsToUpperCase x = CryptoPriceModel.jsToUpperCase s) = true :=
      List.any_eq_true.mpr ⟨s, hs, by simp⟩
    rcases CryptoPriceModel.fetchPricesBatch_shape responses symbols 0 hne with ⟨d, hd⟩ | hd
    · rw [hd, CryptoPriceModel.lookupKey_buildBatchPrices, if_pos hany]
      exact ⟨_, rfl⟩
    · rw [hd, CryptoPriceModel.lookupKey_errorResultFor, if_pos hany]
      exact ⟨_, rfl⟩
  · intro symbols s hs hne
    have hany : (symbols.any fun x =>
        CryptoPriceModel.jsToUpperCase x = CryptoPriceModel.jsToUpperCase s) = true :=
      List.any_eq_true.mpr ⟨s, hs, by simp⟩
    have heq : (CryptoPriceModel.fetchPricesBatch (fun _ => .failed) symbols 0).2
        = CryptoPriceModel.errorResultFor symbols := by
      unfold CryptoPriceModel.fetchPricesBatch
      rw [if_neg hne]
    rw [heq, CryptoPriceModel.lookupKey_errorResultFor, if_pos hany]
  · intro symbols s data g hs hmap hdata
    have hne : symbols.filterMap
        (fun x => CryptoPriceModel.SYMBOL_TO_COINGECKO_ID (CryptoPriceModel.jsToUpperCase x))
        ≠ [] := by
      intro hnil
      exact (by simp [hmap] : ¬ CryptoPriceModel.SYMBOL_TO_COINGECKO_ID
        (CryptoPriceModel.jsToUpperCase s) = none) ((List.filterMap_eq_nil_iff.mp hnil) s hs)
    have hany : (symbols.any fun x =>
        CryptoPriceModel.jsToUpperCase x = CryptoPriceModel.jsToUpperCase s) = true :=
      List.any_eq_true.mpr ⟨s, hs, by simp⟩
    have heq : (CryptoPriceModel.fetchPricesBatch (fun _ => .ok (some data)) symbols 0).2
        = CryptoPriceModel.buildBatchPrices symbols (some data) := by
      unfold CryptoPriceModel.fetchPricesBatch
      rw [if_neg hne]
    rw [heq, CryptoPriceModel.lookupKey_buildBatchPrices, if_pos hany]
    simp [CryptoPriceModel.batchValue, hmap, hdata, JNum.truthy]

/-- Witness for C10, on the concrete call `fetchPricesBatch(['BTC','doge'])`:
BTC (mappable) always has an entry; on a failed request BTC maps to null;
and with bitcoin quoted at exactly 0, BTC maps to null. -/
theorem fetchPricesBatch_totality_witness :
    ("BTC" ∈ ["BTC", "doge"] ∧
      CryptoPriceModel.SYMBOL_TO_COINGECKO_ID (CryptoPriceModel.jsToUpperCase "BTC") ≠ none) ∧
    (∃ v : Option JNum,
      CryptoPriceModel.lookupKey
        (CryptoPriceModel.fetchPricesBatch (fun _ => .ok (some zeroData)) ["BTC", "doge"] 0).2
        (CryptoPriceModel.jsToUpperCase "BTC") = some v) ∧
    CryptoPriceModel.lookupKey
        (CryptoPriceModel.fetchPricesBatch (fun _ => .failed) ["BTC", "doge"] 0).2
        (CryptoPriceModel.jsToUpperCase "BTC") = some none ∧
    CryptoPriceModel.lookupKey
        (CryptoPriceModel.fetchPricesBatch (fun _ => .ok (some zeroData)) ["BTC", "doge"] 0).2
        (CryptoPriceModel.jsToUpperCase "BTC") = some none := by
  refine ⟨⟨by decide, by decide⟩,
    fetchPricesBatch_totality.1 (fun _ => .ok (some zeroData)) ["BTC", "doge"] "BTC"
      (by decide) (by decide),
    fetchPricesBatch_totality.2.1 ["BTC", "doge"] "BTC" (by decide) (by decide),
    fetchPricesBatch_totality.2.2 ["BTC", "doge"] "BTC" zeroData "bitcoin"
      (by decide) (by decide) (by simp [zeroData])⟩
